import Mathlib

/-!
Verification development for the `redis-server` process manager
(`RedisServer.js`).  The classifier (`parseData`), the flag builder
(`parseFlags`) and the lifecycle coordinator (static `open`/`close`, the
stdout data listener and the process close handler) are embedded as
executable Lean definitions over `List Char` and a small operational state
machine, and the documented properties are proved or refuted against them.
-/

namespace RedisServer

/-- The apostrophe character (code point 39), introduced by name so that
string literals in this file stay free of quote characters. -/
def apos : Char := Char.ofNat 39

/-- The JavaScript regular-expression class `\s`, restricted to the ASCII
whitespace characters (space, tab, line feed, vertical tab, form feed,
carriage return), by code point. -/
def isWs (c : Char) : Bool :=
  c.toNat = 32 || c.toNat = 9 || c.toNat = 10 || c.toNat = 11 ||
  c.toNat = 12 || c.toNat = 13

/-- The JavaScript regular-expression class `\d` (ASCII digits), by code
point. -/
def isDigitCh (c : Char) : Bool := 48 ≤ c.toNat && c.toNat ≤ 57

/-- Case-insensitive character comparison, as performed by the `i` flag of
the source regular expressions. -/
def ciEqChar (a b : Char) : Bool := a.toLower = b.toLower

/-- Does `s` begin with the literal word `w`, compared case-insensitively? -/
def ciLitAt : List Char → List Char → Bool
  | [], _ => true
  | _ :: _, [] => false
  | a :: w, b :: s => ciEqChar a b && ciLitAt w s

/-- One token of a source regular expression: a literal word, `\s+`, or
`\d+`.  The three `terminalMessages` patterns of `RedisServer.js` are
sequences (or alternations of sequences) of these tokens. -/
inductive Tok
  | lit (w : List Char)
  | wsPlus
  | digitPlus
deriving DecidableEq

/-- Match a token sequence at the start of `s`, returning the matched text
(with the original characters of `s`).  `\s+` and `\d+` take the maximal
run, which coincides with the backtracking semantics of the source
patterns because in every pattern the token following `\s+` or `\d+`
cannot begin with a whitespace or digit character respectively. -/
def matchToksAt : List Tok → List Char → Option (List Char)
  | [], _ => some []
  | Tok.lit w :: ts, s =>
    if ciLitAt w s then
      (matchToksAt ts (s.drop w.length)).map (fun m => s.take w.length ++ m)
    else none
  | Tok.wsPlus :: ts, s =>
    let r := s.takeWhile isWs
    if r.isEmpty then none
    else (matchToksAt ts (s.dropWhile isWs)).map (fun m => r ++ m)
  | Tok.digitPlus :: ts, s =>
    let r := s.takeWhile isDigitCh
    if r.isEmpty then none
    else (matchToksAt ts (s.dropWhile isDigitCh)).map (fun m => r ++ m)

/-- `RegExp.prototype.exec` for a token sequence: the match at the leftmost
position where the sequence matches, scanning left to right. -/
def execToks (ts : List Tok) : List Char → Option (List Char)
  | [] => matchToksAt ts []
  | c :: rest =>
    match matchToksAt ts (c :: rest) with
    | some m => some m
    | none => execToks ts rest

/-- `exec` for an alternation of token sequences: leftmost position wins;
at a given position the alternatives are tried in listed order. -/
def execAlts (alts : List (List Tok)) : List Char → Option (List Char)
  | [] => alts.findSome? (fun ts => matchToksAt ts [])
  | c :: rest =>
    match alts.findSome? (fun ts => matchToksAt ts (c :: rest)) with
    | some m => some m
    | none => execAlts alts rest

/-- Shorthand for a literal word token. -/
def litW (s : String) : Tok := Tok.lit s.toList

/-- The characters of the contraction used by the source patterns
(`c`, `a`, `n`, apostrophe, `t`). -/
def cantWord : List Char := ['c', 'a', 'n', apos, 't']

/-- Source pattern `ready\s+to\s+accept` (flags `im`). -/
def readyToks : List Tok :=
  [litW "ready", Tok.wsPlus, litW "to", Tok.wsPlus, litW "accept"]

/-- Source pattern for the max-open-files warning (flags `im`). -/
def warnToks : List Tok :=
  [Tok.lit cantWord, Tok.wsPlus, litW "set", Tok.wsPlus, litW "maximum",
   Tok.wsPlus, litW "open", Tok.wsPlus, litW "files", Tok.wsPlus, litW "to",
   Tok.wsPlus, Tok.digitPlus, Tok.wsPlus, litW "because", Tok.wsPlus,
   litW "of", Tok.wsPlus, litW "os", Tok.wsPlus, litW "error"]

/-- Source alternation `already\s+in\s+use|not\s+listen|error|denied|can't`
(flags `im`). -/
def useAlts : List (List Tok) :=
  [[litW "already", Tok.wsPlus, litW "in", Tok.wsPlus, litW "use"],
   [litW "not", Tok.wsPlus, litW "listen"],
   [litW "error"],
   [litW "denied"],
   [Tok.lit cantWord]]

/-- The first non-null `exec` result of the three `terminalMessages`
patterns, in array order (`.map(re => re.exec(string)).find(m => m !== null)`
followed by `.pop()`, which for these group-free patterns yields the full
matched text). -/
def terminalMatch (s : List Char) : Option (List Char) :=
  match execToks readyToks s with
  | some m => some m
  | none =>
    match execToks warnToks s with
    | some m => some m
    | none => execAlts useAlts s

/-- A character matched by `.` (anything but line terminators). -/
def isDotChar (c : Char) : Bool := !(c = Char.ofNat 10 || c = Char.ofNat 13)

/-- The maximal run of `.`-matchable characters at the front of `s`. -/
def lineOf (s : List Char) : List Char := s.takeWhile isDotChar

/-- The characters of the word used by the error-message pattern. -/
def errorWord : List Char := ['e', 'r', 'r', 'o', 'r']

/-- The longest prefix of `l` that ends in a case-insensitive occurrence of
`error`; this is what the greedy `.*error` sub-pattern captures on the
remainder of a line. -/
def lastErrorEnd : List Char → Option (List Char)
  | [] => none
  | c :: rest =>
    match lastErrorEnd rest with
    | some g => some (c :: g)
    | none =>
      if ciLitAt errorWord (c :: rest) then some ((c :: rest).take 5) else none

/-- The capture group `(.*error|can't.*)` evaluated at a position:
`.*error` is tried first (greedy, within the current line), then
`can't.*`. -/
def groupAt (l : List Char) : Option (List Char) :=
  match lastErrorEnd (lineOf l) with
  | some g => some g
  | none =>
    if ciLitAt cantWord l then some (l.take 5 ++ lineOf (l.drop 5)) else none

/-- The length of the maximal whitespace run at the front of `s`. -/
def wsRunLen (s : List Char) : Nat := (s.takeWhile isWs).length

/-- Backtracking over the `\s+` of the error-message pattern: the greedy
run is tried first, then successively shorter non-empty runs. -/
def tryWsRuns : Nat → List Char → Option (List Char)
  | 0, _ => none
  | k + 1, rest =>
    match groupAt (rest.drop (k + 1)) with
    | some g => some g
    | none => tryWsRuns k rest

/-- Source pattern `#\s+(.*error|can't.*)` (flags `im`): the value that
`regExp.errorMessage.exec(string).pop()` would return, namely the text of
capture group 1, or `none` when the pattern does not match. -/
def errorMessageExec : List Char → Option (List Char)
  | [] => none
  | c :: rest =>
    match (if c = '#' then tryWsRuns (wsRunLen rest) rest else none) with
    | some g => some g
    | none => errorMessageExec rest

/-- Scanner state for `squashWs`: outside any whitespace, after one
pending whitespace character (kept verbatim unless the run continues), or
inside a run that has already been collapsed to one space. -/
inductive SqState
  | normal
  | pend (c : Char)
  | run
deriving DecidableEq

/-- One left-to-right pass of `replace(/\s\s+/g, ' ')`: a run of two or
more whitespace characters becomes a single space, a lone whitespace
character is kept as it is. -/
def squashGo : SqState → List Char → List Char
  | SqState.normal, [] => []
  | SqState.pend c, [] => [c]
  | SqState.run, [] => []
  | SqState.normal, x :: rest =>
    if isWs x then squashGo (SqState.pend x) rest
    else x :: squashGo SqState.normal rest
  | SqState.pend c, x :: rest =>
    if isWs x then ' ' :: squashGo SqState.run rest
    else c :: x :: squashGo SqState.normal rest
  | SqState.run, x :: rest =>
    if isWs x then squashGo SqState.run rest
    else x :: squashGo SqState.normal rest

/-- `string.replace(/\s\s+/g, ' ')`. -/
def squashWs (l : List Char) : List Char := squashGo SqState.normal l

/-- Does `s` begin with the literal (case-sensitive) sequence `m`? -/
def startsWith : List Char → List Char → Bool
  | _, [] => true
  | [], _ :: _ => false
  | a :: s, b :: m => a = b && startsWith s m

/-- `string.replace(match, '')` for a plain-string `match`: remove the
first literal occurrence of `m` from `s` (or return `s` unchanged when `m`
does not occur). -/
def removeFirst : List Char → List Char → List Char
  | [], _ => []
  | a :: rest, m =>
    if startsWith (a :: rest) m then (a :: rest).drop m.length
    else a :: removeFirst rest m

/-- The key normalization of `parseData`: strip whitespace, quote marks,
commas and digits, then lower-case
(`match.replace(...).replace(...).replace(...).replace(...).toLowerCase()`). -/
def normalizeKey (m : List Char) : List Char :=
  (((((m.filter (fun c => !(isWs c))).filter (fun c => !(c.toNat = 39))).filter
    (fun c => !(c.toNat = 44))).filter (fun c => !(isDigitCh c))).map Char.toLower)

/-- A character that survives all four removal passes of `normalizeKey`:
not whitespace, not a quote mark (39), not a comma (44), not a digit. -/
def keepCh (c : Char) : Bool :=
  !(isWs c) && !(c.toNat = 39) && !(c.toNat = 44) && !(isDigitCh c)

/-- Switch key for the ready message. -/
def readyKey : List Char := "readytoaccept".toList

/-- Switch key for the address-in-use error. -/
def inuseKey : List Char := "alreadyinuse".toList

/-- Switch key for the permission-denied error. -/
def deniedKey : List Char := "denied".toList

/-- Switch key for the not-listen error. -/
def notlistenKey : List Char := "notlisten".toList

/-- Switch key for a generic error marker. -/
def errorKey : List Char := "error".toList

/-- Switch key for the contraction marker. -/
def cantKey : List Char := "cant".toList

/-- Switch key for the max-open-files warning. -/
def warnKey : List Char := "cantsetmaximumopenfilestobecauseofoserror".toList

/-- The error value attached to a parse result (`result.err`): an exit
code and a message. -/
structure RedisError where
  code : Int
  message : List Char
deriving DecidableEq, Repr

/-- The object returned by `RedisServer.parseData`: an optional error and
the normalized key. -/
structure ParseResult where
  err : Option RedisError
  key : List Char
deriving DecidableEq, Repr

/-- `m` occurs as a contiguous segment of `s`. -/
def OccursIn (s m : List Char) : Prop := ∃ pre post, s = pre ++ m ++ post

theorem matchToksAt_append : ∀ (ts : List Tok) (s m : List Char),
    matchToksAt ts s = some m → ∃ r, s = m ++ r := by
  intro ts
  induction ts with
  | nil =>
    intro s m h
    simp only [matchToksAt, Option.some.injEq] at h
    exact ⟨s, by simp [← h]⟩
  | cons t ts ih =>
    intro s m h
    cases t with
    | lit w =>
      simp only [matchToksAt] at h
      by_cases hp : ciLitAt w s
      · rw [if_pos hp] at h
        cases hm : matchToksAt ts (s.drop w.length) with
        | none => rw [hm] at h; simp at h
        | some m' =>
          rw [hm] at h
          simp only [Option.map_some', Option.some.injEq] at h
          obtain ⟨r, hr⟩ := ih _ _ hm
          refine ⟨r, ?_⟩
          rw [← h]
          conv_lhs => rw [← List.take_append_drop w.length s]
          rw [hr, List.append_assoc]
      · rw [if_neg hp] at h; simp at h
    | wsPlus =>
      simp only [matchToksAt] at h
      by_cases hp : (s.takeWhile isWs).isEmpty
      · rw [if_pos hp] at h; simp at h
      · rw [if_neg hp] at h
        cases hm : matchToksAt ts (s.dropWhile isWs) with
        | none => rw [hm] at h; simp at h
        | some m' =>
          rw [hm] at h
          simp only [Option.map_some', Option.some.injEq] at h
          obtain ⟨r, hr⟩ := ih _ _ hm
          refine ⟨r, ?_⟩
          rw [← h]
          conv_lhs => rw [← List.takeWhile_append_dropWhile isWs s]
          rw [hr, List.append_assoc]
    | digitPlus =>
      simp only [matchToksAt] at h
      by_cases hp : (s.takeWhile isDigitCh).isEmpty
      · rw [if_pos hp] at h; simp at h
      · rw [if_neg hp] at h
        cases hm : matchToksAt ts (s.dropWhile isDigitCh) with
        | none => rw [hm] at h; simp at h
        | some m' =>
          rw [hm] at h
          simp only [Option.map_some', Option.some.injEq] at h
          obtain ⟨r, hr⟩ := ih _ _ hm
          refine ⟨r, ?_⟩
          rw [← h]
          conv_lhs => rw [← List.takeWhile_append_dropWhile isDigitCh s]
          rw [hr, List.append_assoc]

theorem matchToksAt_lit_ne_nil {w : List Char} {ts : List Tok} {s m : List Char}
    (h : matchToksAt (Tok.lit w :: ts) s = some m) (hw : w ≠ []) : m ≠ [] := by
  simp only [matchToksAt] at h
  by_cases hp : ciLitAt w s
  · rw [if_pos hp] at h
    cases hm : matchToksAt ts (s.drop w.length) with
    | none => rw [hm] at h; simp at h
    | some m' =>
      rw [hm] at h
      simp only [Option.map_some', Option.some.injEq] at h
      cases s with
      | nil =>
        cases w with
        | nil => exact absurd rfl hw
        | cons c w' => simp [ciLitAt] at hp
      | cons b s' =>
        cases w with
        | nil => exact absurd rfl hw
        | cons c w' =>
          rw [← h]
          simp [List.take]
  · rw [if_neg hp] at h; simp at h

theorem execToks_occurs : ∀ (ts : List Tok) (s m : List Char),
    execToks ts s = some m → OccursIn s m := by
  intro ts s
  induction s with
  | nil =>
    intro m h
    simp only [execToks] at h
    obtain ⟨r, hr⟩ := matchToksAt_append ts [] m h
    exact ⟨[], r, by simp [hr]⟩
  | cons c rest ih =>
    intro m h
    simp only [execToks] at h
    cases hm : matchToksAt ts (c :: rest) with
    | some m' =>
      rw [hm] at h
      obtain ⟨r, hr⟩ := matchToksAt_append ts (c :: rest) m' hm
      cases h
      exact ⟨[], r, by simpa using hr⟩
    | none =>
      rw [hm] at h
      obtain ⟨pre, post, hp⟩ := ih m h
      exact ⟨c :: pre, post, by simp [hp]⟩

theorem execToks_matchToksAt : ∀ (ts : List Tok) (s m : List Char),
    execToks ts s = some m → ∃ t, matchToksAt ts t = some m := by
  intro ts s
  induction s with
  | nil =>
    intro m h
    simp only [execToks] at h
    exact ⟨[], h⟩
  | cons c rest ih =>
    intro m h
    simp only [execToks] at h
    cases hm : matchToksAt ts (c :: rest) with
    | some m' =>
      rw [hm] at h
      cases h
      exact ⟨c :: rest, hm⟩
    | none =>
      rw [hm] at h
      exact ih m h

theorem execAlts_occurs : ∀ (alts : List (List Tok)) (s m : List Char),
    execAlts alts s = some m → OccursIn s m := by
  intro alts s
  induction s with
  | nil =>
    intro m h
    simp only [execAlts] at h
    obtain ⟨ts, _, hts⟩ := List.exists_of_findSome?_eq_some h
    obtain ⟨r, hr⟩ := matchToksAt_append ts [] m hts
    exact ⟨[], r, by simp [hr]⟩
  | cons c rest ih =>
    intro m h
    simp only [execAlts] at h
    cases hm : alts.findSome? (fun ts => matchToksAt ts (c :: rest)) with
    | some m' =>
      rw [hm] at h
      obtain ⟨ts, _, hts⟩ := List.exists_of_findSome?_eq_some hm
      obtain ⟨r, hr⟩ := matchToksAt_append ts (c :: rest) m' hts
      cases h
      exact ⟨[], r, by simpa using hr⟩
    | none =>
      rw [hm] at h
      obtain ⟨pre, post, hp⟩ := ih m h
      exact ⟨c :: pre, post, by simp [hp]⟩

theorem execAlts_mem : ∀ (alts : List (List Tok)) (s m : List Char),
    execAlts alts s = some m → ∃ ts, ts ∈ alts ∧ ∃ t, matchToksAt ts t = some m := by
  intro alts s
  induction s with
  | nil =>
    intro m h
    simp only [execAlts] at h
    obtain ⟨ts, hmem, hts⟩ := List.exists_of_findSome?_eq_some h
    exact ⟨ts, hmem, [], hts⟩
  | cons c rest ih =>
    intro m h
    simp only [execAlts] at h
    cases hm : alts.findSome? (fun ts => matchToksAt ts (c :: rest)) with
    | some m' =>
      rw [hm] at h
      cases h
      obtain ⟨ts, hmem, hts⟩ := List.exists_of_findSome?_eq_some hm
      exact ⟨ts, hmem, c :: rest, hts⟩
    | none =>
      rw [hm] at h
      exact ih m h

theorem terminalMatch_sound : ∀ (s m : List Char),
    terminalMatch s = some m → OccursIn s m ∧ m ≠ [] := by
  intro s m h
  simp only [terminalMatch] at h
  cases h1 : execToks readyToks s with
  | some m1 =>
    rw [h1] at h
    cases h
    refine ⟨execToks_occurs _ _ _ h1, ?_⟩
    obtain ⟨t, ht⟩ := execToks_matchToksAt _ _ _ h1
    exact matchToksAt_lit_ne_nil ht (by simp [litW])
  | none =>
    rw [h1] at h
    cases h2 : execToks warnToks s with
    | some m2 =>
      rw [h2] at h
      cases h
      refine ⟨execToks_occurs _ _ _ h2, ?_⟩
      obtain ⟨t, ht⟩ := execToks_matchToksAt _ _ _ h2
      exact matchToksAt_lit_ne_nil ht (by simp [cantWord])
    | none =>
      rw [h2] at h
      refine ⟨execAlts_occurs _ _ _ h, ?_⟩
      obtain ⟨ts, hmem, t, ht⟩ := execAlts_mem _ _ _ h
      simp only [useAlts, List.mem_cons, List.not_mem_nil, or_false] at hmem
      rcases hmem with rfl | rfl | rfl | rfl | rfl
      · exact matchToksAt_lit_ne_nil ht (by simp [litW])
      · exact matchToksAt_lit_ne_nil ht (by simp [litW])
      · exact matchToksAt_lit_ne_nil ht (by simp [litW])
      · exact matchToksAt_lit_ne_nil ht (by simp [litW])
      · exact matchToksAt_lit_ne_nil ht (by simp [cantWord])

theorem startsWith_length_le : ∀ (s m : List Char),
    startsWith s m = true → m.length ≤ s.length := by
  intro s
  induction s with
  | nil =>
    intro m h
    cases m with
    | nil => simp
    | cons b m' => simp [startsWith] at h
  | cons a s' ih =>
    intro m h
    cases m with
    | nil => simp
    | cons b m' =>
      simp only [startsWith, Bool.and_eq_true] at h
      have := ih m' h.2
      simp only [List.length_cons]
      omega

theorem startsWith_append : ∀ (m post : List Char),
    startsWith (m ++ post) m = true := by
  intro m
  induction m with
  | nil =>
    intro post
    cases post <;> simp [startsWith]
  | cons b m' ih =>
    intro post
    simp [startsWith, ih post]

theorem removeFirst_length_lt : ∀ (pre s m post : List Char),
    s = pre ++ m ++ post → m ≠ [] →
    (removeFirst s m).length < s.length := by
  intro pre
  induction pre with
  | nil =>
    intro s m post hs hm
    cases m with
    | nil => exact absurd rfl hm
    | cons b m' =>
      subst hs
      simp only [List.nil_append, List.cons_append]
      rw [removeFirst]
      have hsw : startsWith (b :: (m' ++ post)) (b :: m') = true := by
        simpa using startsWith_append (b :: m') post
      rw [if_pos hsw]
      have hdrop : List.drop (b :: m').length (b :: (m' ++ post)) = post := by
        simpa using List.drop_left (b :: m') post
      rw [hdrop]
      simp only [List.length_cons, List.length_append]
      omega
  | cons c pre' ih =>
    intro s m post hs hm
    subst hs
    simp only [List.cons_append]
    rw [removeFirst]
    by_cases hsw : startsWith (c :: (pre' ++ m ++ post)) m
    · rw [if_pos hsw]
      have hle := startsWith_length_le _ _ hsw
      rw [List.length_drop]
      cases m with
      | nil => exact absurd rfl hm
      | cons b m' =>
        simp only [List.length_cons] at hle ⊢
        omega
    · rw [if_neg hsw]
      have := ih (pre' ++ m ++ post) m post rfl hm
      simp only [List.length_cons]
      omega

/-- `RedisServer.parseData`: classify a chunk of server output.  The value
`Except.error ()` models the `TypeError` thrown by
`regExp.errorMessage.exec(string).pop()` when the error-message pattern
does not match; all other paths return the object built by the source
(`Except.ok none` for `return null`). -/
def parseData (s : List Char) : Except Unit (Option ParseResult) :=
  match hterm : terminalMatch s with
  | none => Except.ok none
  | some m =>
    if normalizeKey m = readyKey then
      Except.ok (some { err := none, key := normalizeKey m })
    else if normalizeKey m = inuseKey then
      Except.ok (some { err := some { code := -1, message := "Address already in use".toList },
                        key := normalizeKey m })
    else if normalizeKey m = deniedKey then
      Except.ok (some { err := some { code := -2, message := "Permission denied".toList },
                        key := normalizeKey m })
    else if normalizeKey m = notlistenKey then
      Except.ok (some { err := some { code := -3, message := "Invalid port number".toList },
                        key := normalizeKey m })
    else if normalizeKey m = cantKey ∨ normalizeKey m = errorKey then
      match errorMessageExec s with
      | some g =>
        Except.ok (some { err := some { code := -3, message := squashWs g },
                          key := normalizeKey m })
      | none => Except.error ()
    else if normalizeKey m = warnKey then
      parseData (removeFirst s m)
    else
      Except.ok (some { err := none, key := normalizeKey m })
termination_by s.length
decreasing_by
  obtain ⟨⟨pre, post, hocc⟩, hne⟩ := terminalMatch_sound s m hterm
  exact removeFirst_length_lt pre s m post hocc hne

/-- The fields of a `RedisServer~Config` that `parseFlags` reads.  `port`
is stored as the character sequence that the template literal
interpolation would render. -/
structure Config where
  bin : Option (List Char) := none
  conf : Option (List Char) := none
  port : Option (List Char) := none
  slaveof : Option (List Char) := none
deriving DecidableEq, Repr

/-- `RedisServer.parseFlags`: the argument list handed to
`childprocess.spawn`.  When `conf` is set the list is exactly `[conf]`;
otherwise one joined string per present flag, port first. -/
def parseFlags (config : Config) : List (List Char) :=
  match config.conf with
  | some c => [c]
  | none =>
    (match config.port with
     | some p => ["--port ".toList ++ p]
     | none => []) ++
    (match config.slaveof with
     | some so => ["--slaveof ".toList ++ so]
     | none => [])

/-- Modelled from the spec, for comparison with `parseFlags`: the
reference argument list of section 4.2/6, in which a flag name and its
value are separate sequence elements (`["--port", port, ("--slaveof",
slaveOf)?]`), with `[confPath]` alone when `confPath` is set. -/
def buildArgsSpec (config : Config) : List (List Char) :=
  match config.conf with
  | some c => [c]
  | none =>
    (match config.port with
     | some p => ["--port".toList, p]
     | none => []) ++
    (match config.slaveof with
     | some so => ["--slaveof".toList, so]
     | none => [])

/-- The spec argument list amended to what the source builds: a single
joined element per flag (name, one space, value), port before slaveof,
and `[confPath]` alone when `confPath` is set. -/
def buildArgsJoined (config : Config) : List (List Char) :=
  if h : config.conf.isSome then [config.conf.get h]
  else
    (config.port.elim [] fun p => ["--port ".toList ++ p]) ++
    (config.slaveof.elim [] fun so => ["--slaveof ".toList ++ so])

/-- Lifecycle events emitted by the coordinator.  The source names are
`opening`, `open`, `closing` and `close`; the last three are spelt
`opened`/`closing`/`closed` here because `open` is a Lean keyword. -/
inductive Ev
  | opening
  | opened
  | closing
  | closed
deriving DecidableEq, Repr

/-- A task sitting in the serial promise queue (`promiseQueue`), tagged
with the identifier of the promise that `promiseQueue.add` returned for
it. -/
inductive QTask
  | tOpen (pid : Nat)
  | tClose (pid : Nat)
deriving DecidableEq, Repr

/-- The queue task currently holding the single slot of the queue:
an open task whose stdout data listener is attached and waiting for a
classifiable chunk; an open task that saw a failure classification and
is waiting for the process close event in order to reject; or a close
task waiting for the process close event after `kill`. -/
inductive InFlight
  | openWaitData (pid : Nat)
  | openWaitClose (pid : Nat) (e : RedisError)
  | closeWaitExit (pid : Nat)
deriving DecidableEq, Repr

/-- The mutable state of one `RedisServer` instance: the three observable
flags, the process handle (`process`, holding the spawn number), the
serial promise queue (queued tasks plus the in-flight task), the promises
last returned by open/close (`openPromise`/`closePromise`, as identifiers
allocated from `nextPid`), a spawn counter, the emitted lifecycle events,
and the settlement log of queue promises (`none` = resolved with null,
`some e` = rejected with `e`), in settlement order. -/
structure ServerState where
  isOpening : Bool := false
  isRunning : Bool := false
  isClosing : Bool := false
  process : Option Nat := none
  queue : List QTask := []
  inflight : Option InFlight := none
  openPromise : Nat := 0
  closePromise : Nat := 1
  nextPid : Nat := 2
  spawns : Nat := 0
  events : List Ev := []
  settled : List (Nat × Option RedisError) := []
deriving DecidableEq, Repr

/-- Record the settlement of queue promise `pid`. -/
def settleTask (s : ServerState) (pid : Nat) (v : Option RedisError) : ServerState :=
  { s with settled := s.settled ++ [(pid, v)] }

/-- Result of starting one queued task: `done` when its promise settled
immediately (the queue continues), `blocked` when it is waiting on an
external event. -/
inductive TaskOut
  | done (s : ServerState)
  | blocked (s : ServerState)

/-- Run the body of one queued task, translated from the closures passed
to `promiseQueue.add` in the static `open` (lines 219-289) and `close`
(lines 308-320) of `RedisServer.js`.  An open task whose guard
`isClosing or isRunning` holds clears `isOpening` and resolves at once;
otherwise it emits `opening`, spawns the process and leaves the stdout
data listener waiting.  A close task whose guard `isOpening or not
isRunning` holds clears `isClosing` and resolves at once; otherwise it
emits `closing`, registers the close handler and kills the process. -/
def taskStep (s : ServerState) : QTask → TaskOut
  | QTask.tOpen pid =>
    if s.isClosing || s.isRunning then
      TaskOut.done (settleTask { s with isOpening := false } pid none)
    else
      TaskOut.blocked
        { s with events := s.events ++ [Ev.opening],
                 spawns := s.spawns + 1,
                 process := some (s.spawns + 1),
                 inflight := some (InFlight.openWaitData pid) }
  | QTask.tClose pid =>
    if s.isOpening || !s.isRunning then
      TaskOut.done (settleTask { s with isClosing := false } pid none)
    else
      TaskOut.blocked
        { s with events := s.events ++ [Ev.closing],
                 inflight := some (InFlight.closeWaitExit pid) }

/-- Drain the promise queue while its single slot is free: start the head
task; if it settles at once, continue with the rest.  The fuel is the
queue length, which suffices because tasks never enqueue. -/
def runQueueF : Nat → ServerState → ServerState
  | 0, s => s
  | n + 1, s =>
    if s.inflight.isSome then s
    else
      match s.queue with
      | [] => s
      | t :: rest =>
        match taskStep { s with queue := rest } t with
        | TaskOut.done s' => runQueueF n s'
        | TaskOut.blocked s' => s'

/-- Drain the promise queue (concurrency 1), as `promise-queue` does after
`add` and after each settlement. -/
def runQueue (s : ServerState) : ServerState := runQueueF s.queue.length s

/-- The static `RedisServer.open` (lines 212-292): when `isOpening`, return
the state unchanged (the same `openPromise` is handed back); otherwise set
`isOpening`, clear `isClosing`, store a fresh promise in `openPromise`,
enqueue the open task and drain the queue. -/
def openServer (s : ServerState) : ServerState :=
  if s.isOpening then s
  else
    runQueue
      { s with isOpening := true, isClosing := false,
               openPromise := s.nextPid, nextPid := s.nextPid + 1,
               queue := s.queue ++ [QTask.tOpen s.nextPid] }

/-- The static `RedisServer.close` (lines 301-323): when `isClosing`,
return the state unchanged (the same `closePromise` is handed back);
otherwise set `isClosing`, clear `isOpening`, store a fresh promise in
`closePromise`, enqueue the close task and drain the queue. -/
def closeServer (s : ServerState) : ServerState :=
  if s.isClosing then s
  else
    runQueue
      { s with isClosing := true, isOpening := false,
               closePromise := s.nextPid, nextPid := s.nextPid + 1,
               queue := s.queue ++ [QTask.tClose s.nextPid] }

/-- The stdout data listener of the open task (lines 234-257), applied to
the value `parseData` returned for the incoming chunk (`r`).  A `null`
result keeps listening.  A success result clears `isOpening`, sets
`isRunning`, emits `open` and resolves the open promise (after which the
queue is drained).  A failure result clears `isOpening`, sets `isClosing`,
emits `closing` and waits for the process close event to reject. -/
def dataListener (s : ServerState) (r : Option ParseResult) : ServerState :=
  match s.inflight with
  | some (InFlight.openWaitData pid) =>
    match r with
    | none => s
    | some res =>
      match res.err with
      | none =>
        runQueue (settleTask
          { s with isOpening := false, isRunning := true,
                   events := s.events ++ [Ev.opened], inflight := none } pid none)
      | some e =>
        { s with isOpening := false, isClosing := true,
                 events := s.events ++ [Ev.closing],
                 inflight := some (InFlight.openWaitClose pid e) }
  | _ => s

/-- The process `close` event.  The handler registered at spawn time
(lines 276-283) runs first: it clears the process handle, `isRunning` and
`isClosing` and emits `close`.  The `once('close', ...)` continuation
registered later (line 255 or line 317) then rejects or resolves the
pending promise, after which the queue is drained. -/
def processClose (s : ServerState) : ServerState :=
  match s.process with
  | none => s
  | some _ =>
    let s1 := { s with process := none, isRunning := false, isClosing := false,
                       events := s.events ++ [Ev.closed] }
    match s1.inflight with
    | some (InFlight.openWaitClose pid e) =>
      runQueue (settleTask { s1 with inflight := none } pid (some e))
    | some (InFlight.closeWaitExit pid) =>
      runQueue (settleTask { s1 with inflight := none } pid none)
    | _ => s1

/-- One external step on an instance: a public `open()` or `close()` call,
a classifiable-or-not stdout chunk for the attached data listener, or the
process close event. -/
inductive Step
  | openCall
  | closeCall
  | data (r : Option ParseResult)
  | exitEvent
deriving DecidableEq, Repr

/-- Apply one step. -/
def applyStep (s : ServerState) : Step → ServerState
  | Step.openCall => openServer s
  | Step.closeCall => closeServer s
  | Step.data r => dataListener s r
  | Step.exitEvent => processClose s

/-- Run a sequence of steps. -/
def run (s : ServerState) (l : List Step) : ServerState := l.foldl applyStep s

/-- The state built by the constructor: idle, no process, resolved initial
promises. -/
def initState : ServerState := {}

theorem taskStep_done_excl {s s' : ServerState} {t : QTask}
    (ht : taskStep s t = TaskOut.done s') :
    (s'.isOpening && s'.isClosing) = false := by
  cases t with
  | tOpen pid =>
    simp only [taskStep] at ht
    split at ht
    · cases ht; simp [settleTask]
    · cases ht
  | tClose pid =>
    simp only [taskStep] at ht
    split at ht
    · cases ht; simp [settleTask]
    · cases ht

theorem taskStep_blocked_excl {s s' : ServerState} {t : QTask}
    (h : (s.isOpening && s.isClosing) = false)
    (ht : taskStep s t = TaskOut.blocked s') :
    (s'.isOpening && s'.isClosing) = false := by
  cases t with
  | tOpen pid =>
    simp only [taskStep] at ht
    split at ht
    · cases ht
    · cases ht; simpa using h
  | tClose pid =>
    simp only [taskStep] at ht
    split at ht
    · cases ht
    · cases ht; simpa using h

theorem runQueueF_excl : ∀ (n : Nat) (s : ServerState),
    (s.isOpening && s.isClosing) = false →
    ((runQueueF n s).isOpening && (runQueueF n s).isClosing) = false := by
  intro n
  induction n with
  | zero => intro s h; simpa only [runQueueF] using h
  | succ n ih =>
    intro s h
    rw [runQueueF]
    by_cases hif : s.inflight.isSome
    · rw [if_pos hif]; exact h
    · rw [if_neg hif]
      cases hq : s.queue with
      | nil => simp only [hq]; exact h
      | cons t rest =>
        simp only [hq]
        cases hts : taskStep { s with queue := rest } t with
        | done s' =>
          simp only [hts]
          exact ih s' (taskStep_done_excl hts)
        | blocked s' =>
          simp only [hts]
          exact taskStep_blocked_excl (s := { s with queue := rest }) h hts

theorem runQueue_excl (s : ServerState)
    (h : (s.isOpening && s.isClosing) = false) :
    ((runQueue s).isOpening && (runQueue s).isClosing) = false :=
  runQueueF_excl s.queue.length s h

theorem openServer_excl (s : ServerState)
    (h : (s.isOpening && s.isClosing) = false) :
    ((openServer s).isOpening && (openServer s).isClosing) = false := by
  rw [openServer]
  by_cases ho : s.isOpening
  · rw [if_pos ho]; exact h
  · rw [if_neg ho]
    exact runQueue_excl _ rfl

theorem closeServer_excl (s : ServerState)
    (h : (s.isOpening && s.isClosing) = false) :
    ((closeServer s).isOpening && (closeServer s).isClosing) = false := by
  rw [closeServer]
  by_cases hc : s.isClosing
  · rw [if_pos hc]; exact h
  · rw [if_neg hc]
    exact runQueue_excl _ rfl

theorem dataListener_excl (s : ServerState) (r : Option ParseResult)
    (h : (s.isOpening && s.isClosing) = false) :
    ((dataListener s r).isOpening && (dataListener s r).isClosing) = false := by
  rw [dataListener]
  cases hin : s.inflight with
  | none => exact h
  | some f =>
    cases f with
    | openWaitData pid =>
      cases r with
      | none => exact h
      | some res =>
        cases hre : res.err with
        | none =>
          simp only [hre]
          exact runQueue_excl _ rfl
        | some e =>
          simp only [hre]
          rfl
    | openWaitClose pid e => exact h
    | closeWaitExit pid => exact h

theorem processClose_excl (s : ServerState)
    (h : (s.isOpening && s.isClosing) = false) :
    ((processClose s).isOpening && (processClose s).isClosing) = false := by
  rw [processClose]
  cases hp : s.process with
  | none => exact h
  | some p =>
    cases hin : s.inflight with
    | none => simp only [hin]; simp
    | some f =>
      cases f with
      | openWaitData pid => simp only [hin]; simp
      | openWaitClose pid e =>
        simp only [hin]
        exact runQueue_excl _ (by simp [settleTask])
      | closeWaitExit pid =>
        simp only [hin]
        exact runQueue_excl _ (by simp [settleTask])

theorem applyStep_excl (s : ServerState) (st : Step)
    (h : (s.isOpening && s.isClosing) = false) :
    ((applyStep s st).isOpening && (applyStep s st).isClosing) = false := by
  cases st with
  | openCall => exact openServer_excl s h
  | closeCall => exact closeServer_excl s h
  | data r => exact dataListener_excl s r h
  | exitEvent => exact processClose_excl s h

theorem run_excl : ∀ (l : List Step) (s : ServerState),
    (s.isOpening && s.isClosing) = false →
    ((run s l).isOpening && (run s l).isClosing) = false := by
  intro l
  induction l with
  | nil => intro s h; exact h
  | cons st l ih =>
    intro s h
    simp only [run, List.foldl_cons]
    exact ih (applyStep s st) (applyStep_excl s st h)

/-- The success result the data listener receives when the ready message
is classified. -/
def readyRes : ParseResult := { err := none, key := readyKey }

/-- Claim C1 (counterexample): in the reachable state where a running
server has been told to close and the process has not yet exited, both
`isRunning` and `isClosing` are `true` simultaneously, so the three
observable flags are not mutually exclusive as the claim states. -/
theorem c1_counterexample :
    (run initState [Step.openCall, Step.data (some readyRes), Step.closeCall]).isRunning = true ∧
    (run initState [Step.openCall, Step.data (some readyRes), Step.closeCall]).isClosing = true := by
  constructor
  · decide
  · decide

/-- Claim C1 (amended): in every reachable state of an instance,
`isOpening` and `isClosing` are never simultaneously true; `isRunning`
however may hold together with `isClosing` (while a close of a running
server is in progress) or with `isOpening` (when `open()` is issued while
a close is pending). -/
theorem c1_opening_closing_exclusive (l : List Step) :
    ((run initState l).isOpening && (run initState l).isClosing) = false :=
  run_excl l initState rfl

/-- The interleaved call sequence of claim C2: `open()`, `close()`,
`open()`, `close()` issued back to back without awaiting, followed by the
environment events each spawned process necessarily produces in order
(first process classifies ready then exits after the kill; same for the
second). -/
def c2Steps : List Step :=
  [Step.openCall, Step.closeCall, Step.openCall, Step.closeCall,
   Step.data (some readyRes), Step.exitEvent,
   Step.data (some readyRes), Step.exitEvent]

/-- Claim C2: issuing open, close, open, close without awaiting ends with
the instance idle (all flags false), no process handle and an empty
queue, exactly two spawns, the four promises resolved in invocation
order, and the full serialized event trace
`opening, open, closing, close, opening, open, closing, close`. -/
theorem c2_interleaved_cycle :
    run initState c2Steps =
      { isOpening := false, isRunning := false, isClosing := false,
        process := none, queue := [], inflight := none,
        openPromise := 4, closePromise := 5, nextPid := 6, spawns := 2,
        events := [Ev.opening, Ev.opened, Ev.closing, Ev.closed,
                   Ev.opening, Ev.opened, Ev.closing, Ev.closed],
        settled := [(2, none), (3, none), (4, none), (5, none)] } := by
  decide

/-- A configuration with only a port, as produced by the constructor
defaults. -/
def c4Config : Config := { port := some "6379".toList }

/-- Claim C4 (counterexample): for the port-only configuration the source
flag builder produces the single joined element `--port 6379`, not the
two-element list `["--port", "6379"]` of the reference argument list, so
the two disagree. -/
theorem c4_counterexample : parseFlags c4Config ≠ buildArgsSpec c4Config := by
  decide

/-- Claim C4 (amended): for every configuration the flag builder returns
exactly `[confPath]` when `conf` is set (even when port and slaveof are
also set), and otherwise one single string element `--port <port>`
(flag name and value joined by a space) when `port` is set, followed by
one single string element `--slaveof <slaveOf>` when `slaveof` is set,
port before slaveof. -/
theorem c4_flags_joined (config : Config) :
    parseFlags config = buildArgsJoined config := by
  rcases config with ⟨bin, conf, port, slaveof⟩
  cases conf <;> cases port <;> cases slaveof <;> rfl

/-- Claim C5 (code bug): a chunk that contains an error-pattern word but
no `#`-prefixed error line makes `parseData` throw (the source calls
`regExp.errorMessage.exec(string).pop()` on a `null` result) instead of
returning an outcome. -/
theorem c5_error_branch_throws :
    parseData "Fatal error, aborting now.".toList = Except.error () := by
  rw [parseData.eq_def]
  rfl

/-- A realistic address-in-use chunk. -/
def chunkInUse : List Char :=
  "# Creating Server TCP listening socket *:6379: bind: Address already in use".toList

/-- A realistic permission-denied chunk. -/
def chunkDenied : List Char :=
  "# Creating Server TCP listening socket *:1: bind: Permission denied".toList

/-- A realistic ready chunk. -/
def chunkReady : List Char :=
  "1234:M 01 Jan 00:00:00.000 * Ready to accept connections".toList

/-- A chunk consisting of only the max-open-files warning line. -/
def warnChunk : List Char :=
  "# Server ".toList ++ cantWord ++
  " set maximum open files to 10032 because of OS error: Operation not permitted.".toList

/-- The text the warning pattern matches inside `warnChunk`. -/
def warnMatch : List Char :=
  cantWord ++ " set maximum open files to 10032 because of OS error".toList

/-- Claim C6: the classifier returns failure code -1 for a chunk
containing `Address already in use`, failure code -2 for a chunk
containing `Permission denied`, success for a chunk containing
`Ready to accept connections`, and no outcome for a chunk containing only
the max-open-files warning. -/
theorem c6_classifier_literals :
    parseData chunkInUse =
      Except.ok (some { err := some { code := -1, message := "Address already in use".toList },
                        key := inuseKey }) ∧
    parseData chunkDenied =
      Except.ok (some { err := some { code := -2, message := "Permission denied".toList },
                        key := deniedKey }) ∧
    parseData chunkReady = Except.ok (some { err := none, key := readyKey }) ∧
    parseData warnChunk = Except.ok none := by
  refine ⟨?_, ?_, ?_, ?_⟩
  · rw [parseData.eq_def]; rfl
  · rw [parseData.eq_def]; rfl
  · rw [parseData.eq_def]; rfl
  · rw [parseData.eq_def]
    exact (show parseData (removeFirst warnChunk warnMatch) = Except.ok none by
      rw [parseData.eq_def]; rfl)

/-- Claim C10: whenever the terminal-message scan of `parseData` matches
text whose normalized key is the max-open-files warning key (the only
case in which `parseData` recurses), the matched text is non-empty and
removing its first occurrence yields a strictly shorter string, so the
recursion is well-founded on input length. -/
theorem c10_warning_recursion_decreases (s m : List Char)
    (hterm : terminalMatch s = some m) (hkey : normalizeKey m = warnKey) :
    m ≠ [] ∧ (removeFirst s m).length < s.length := by
  obtain ⟨⟨pre, post, hocc⟩, hne⟩ := terminalMatch_sound s m hterm
  exact ⟨hne, removeFirst_length_lt pre s m post hocc hne⟩

/-- Witness for claim C10 at the concrete warning chunk. -/
theorem c10_witness :
    warnMatch ≠ [] ∧ (removeFirst warnChunk warnMatch).length < warnChunk.length :=
  c10_warning_recursion_decreases warnChunk warnMatch (by decide) (by decide)

/-- Claim C3: when a failed open is waiting for the process close event
(the data listener classified a failure, set `isClosing`, and registered
the rejection on the process close), and no further calls were queued
meanwhile, the open promise is rejected with that error exactly at the
close event, and at that moment the instance is idle: no process handle
and all three flags false, with the `close` event emitted. -/
theorem c3_failed_open_settles_idle (s : ServerState) (pid p : Nat) (e : RedisError)
    (hin : s.inflight = some (InFlight.openWaitClose pid e))
    (hq : s.queue = []) (hp : s.process = some p) (ho : s.isOpening = false) :
    (processClose s).process = none ∧ (processClose s).isOpening = false ∧
    (processClose s).isRunning = false ∧ (processClose s).isClosing = false ∧
    (processClose s).inflight = none ∧ (processClose s).queue = [] ∧
    (processClose s).settled = s.settled ++ [(pid, some e)] ∧
    (processClose s).events = s.events ++ [Ev.closed] := by
  rw [processClose]
  simp only [hp, hin, runQueue, settleTask, hq, runQueueF, ho]
  simp [settleTask, runQueue, runQueueF, hq]

/-- The reachable state just before the close event of a failed open:
`open()` was called on an idle instance and the classifier reported the
address-in-use failure. -/
def c3Pre : ServerState :=
  run initState [Step.openCall,
    Step.data (some { err := some { code := -1, message := "Address already in use".toList },
                      key := inuseKey })]

/-- Witness for claim C3 at the concrete failed-open state. -/
theorem c3_witness :
    (processClose c3Pre).process = none ∧ (processClose c3Pre).isOpening = false ∧
    (processClose c3Pre).isRunning = false ∧ (processClose c3Pre).isClosing = false ∧
    (processClose c3Pre).inflight = none ∧ (processClose c3Pre).queue = [] ∧
    (processClose c3Pre).settled =
      c3Pre.settled ++ [(2, some { code := -1, message := "Address already in use".toList })] ∧
    (processClose c3Pre).events = c3Pre.events ++ [Ev.closed] :=
  c3_failed_open_settles_idle c3Pre 2 1
    { code := -1, message := "Address already in use".toList }
    (by decide) (by decide) (by decide) (by decide)

/-- Claim C8: calling `open()` on an idle quiescent instance and then
calling `open()` again before the first settles returns the very same
state (hence the same pending `openPromise`), and exactly one spawn
happens across both calls. -/
theorem c8_open_dedup (s : ServerState)
    (h1 : s.isOpening = false) (h2 : s.isRunning = false) (h3 : s.isClosing = false)
    (h4 : s.inflight = none) (h5 : s.queue = []) :
    openServer (openServer s) = openServer s ∧
    (openServer s).openPromise = s.nextPid ∧
    (openServer s).spawns = s.spawns + 1 := by
  have hs1 : openServer s =
      { s with isOpening := true, isClosing := false,
               openPromise := s.nextPid, nextPid := s.nextPid + 1,
               queue := [],
               events := s.events ++ [Ev.opening],
               spawns := s.spawns + 1,
               process := some (s.spawns + 1),
               inflight := some (InFlight.openWaitData s.nextPid) } := by
    rw [openServer, if_neg (by rw [h1]; exact Bool.false_ne_true)]
    simp only [h5, List.nil_append, runQueue, runQueueF, h4]
    simp only [taskStep, h3, h2]
    rfl
  refine ⟨?_, ?_, ?_⟩
  · rw [hs1]
    rw [openServer]
    rw [if_pos rfl]
  · rw [hs1]
  · rw [hs1]

/-- Witness for claim C8 at the freshly constructed instance. -/
theorem c8_witness :
    openServer (openServer initState) = openServer initState ∧
    (openServer initState).openPromise = initState.nextPid ∧
    (openServer initState).spawns = initState.spawns + 1 :=
  c8_open_dedup initState rfl rfl rfl rfl rfl

/-- Claim C9: calling `open()` on a running quiescent instance spawns
nothing, emits no event, resolves the fresh open promise successfully
(with no error) and leaves the instance running with its process handle
unchanged. -/
theorem c9_open_running_noop (s : ServerState)
    (h1 : s.isOpening = false) (h2 : s.isRunning = true) (h3 : s.isClosing = false)
    (h4 : s.inflight = none) (h5 : s.queue = []) :
    (openServer s).isOpening = false ∧ (openServer s).isRunning = true ∧
    (openServer s).isClosing = false ∧ (openServer s).process = s.process ∧
    (openServer s).spawns = s.spawns ∧ (openServer s).events = s.events ∧
    (openServer s).settled = s.settled ++ [(s.nextPid, none)] ∧
    (openServer s).queue = [] ∧ (openServer s).inflight = none := by
  have hs1 : openServer s =
      settleTask
        { s with isOpening := false, isClosing := false,
                 openPromise := s.nextPid, nextPid := s.nextPid + 1,
                 queue := [] } s.nextPid none := by
    rw [openServer, if_neg (by rw [h1]; exact Bool.false_ne_true)]
    simp only [h5, List.nil_append, runQueue, runQueueF, h4]
    simp only [taskStep, h3, h2]
    rfl
  rw [hs1]
  simp [settleTask, h2, h4]

/-- The running quiescent state reached by opening a fresh instance and
receiving the ready classification. -/
def c9Pre : ServerState := run initState [Step.openCall, Step.data (some readyRes)]

/-- Witness for claim C9 at the concrete running state. -/
theorem c9_witness :
    (openServer c9Pre).isOpening = false ∧ (openServer c9Pre).isRunning = true ∧
    (openServer c9Pre).isClosing = false ∧ (openServer c9Pre).process = c9Pre.process ∧
    (openServer c9Pre).spawns = c9Pre.spawns ∧ (openServer c9Pre).events = c9Pre.events ∧
    (openServer c9Pre).settled = c9Pre.settled ++ [(c9Pre.nextPid, none)] ∧
    (openServer c9Pre).queue = [] ∧ (openServer c9Pre).inflight = none :=
  c9_open_running_noop c9Pre (by decide) (by decide) (by decide) (by decide) (by decide)

theorem toNat_ofNat_small {n : Nat} (h : n < 55296) : (Char.ofNat n).toNat = n := by
  have hv : n.isValidChar := Or.inl h
  rw [Char.ofNat, dif_pos hv]
  rfl

theorem toLower_spec (c : Char) :
    (c.toLower = c) ∨
    (65 ≤ c.toNat ∧ c.toNat ≤ 90 ∧ c.toLower.toNat = c.toNat + 32) := by
  unfold Char.toLower
  by_cases h : c.toNat ≥ 65 ∧ c.toNat ≤ 90
  · right
    refine ⟨h.1, h.2, ?_⟩
    rw [if_pos h]
    exact toNat_ofNat_small (by omega)
  · left
    rw [if_neg h]

theorem char_toNat_inj {a b : Char} (h : a.toNat = b.toNat) : a = b :=
  Char.ext (UInt32.toNat.inj h)

theorem toLower_toNat_transfer {a b : Char} (h : a.toLower = b.toLower) :
    a = b ∨
    ((97 ≤ a.toNat ∧ a.toNat ≤ 122 ∧ 65 ≤ b.toNat ∧ b.toNat ≤ 90) ∨
     (97 ≤ b.toNat ∧ b.toNat ≤ 122 ∧ 65 ≤ a.toNat ∧ a.toNat ≤ 90)) := by
  rcases toLower_spec a with ha | ⟨ha1, ha2, ha3⟩ <;>
    rcases toLower_spec b with hb | ⟨hb1, hb2, hb3⟩
  · left; rw [← ha, h, hb]
  · right; left
    have hx : a.toNat = b.toNat + 32 := by rw [← hb3, ← h, ha]
    exact ⟨by omega, by omega, hb1, hb2⟩
  · right; right
    have hx : b.toNat = a.toNat + 32 := by rw [← ha3, h, hb]
    exact ⟨by omega, by omega, ha1, ha2⟩
  · left
    have hx : a.toNat + 32 = b.toNat + 32 := by rw [← ha3, ← hb3, h]
    exact char_toNat_inj (by omega)

theorem keepCh_of_letter {a : Char}
    (h : (97 ≤ a.toNat ∧ a.toNat ≤ 122) ∨ (65 ≤ a.toNat ∧ a.toNat ≤ 90)) :
    keepCh a = true := by
  simp only [keepCh, isWs, isDigitCh, Bool.and_eq_true, Bool.not_eq_true',
    Bool.or_eq_false_iff, decide_eq_false_iff_not, Bool.and_eq_false_iff,
    decide_eq_true_eq]
  omega

theorem keepCh_toLower {a b : Char} (h : a.toLower = b.toLower) :
    keepCh a = keepCh b := by
  rcases toLower_toNat_transfer h with rfl | hb | hb
  · rfl
  · rw [keepCh_of_letter (Or.inl ⟨hb.1, hb.2.1⟩),
        keepCh_of_letter (Or.inr ⟨hb.2.2.1, hb.2.2.2⟩)]
  · rw [keepCh_of_letter (Or.inr ⟨hb.2.2.1, hb.2.2.2⟩),
        keepCh_of_letter (Or.inl ⟨hb.1, hb.2.1⟩)]

theorem normalizeKey_cons (c : Char) (l : List Char) :
    normalizeKey (c :: l) =
      (if keepCh c then [c.toLower] else []) ++ normalizeKey l := by
  simp only [normalizeKey, keepCh]
  by_cases h1 : isWs c <;> by_cases h2 : c.toNat = 39 <;>
    by_cases h3 : c.toNat = 44 <;> by_cases h4 : isDigitCh c <;>
    simp [h1, h2, h3, h4, List.filter_cons]

theorem normalizeKey_append (l1 l2 : List Char) :
    normalizeKey (l1 ++ l2) = normalizeKey l1 ++ normalizeKey l2 := by
  simp [normalizeKey, List.filter_append, List.map_append]

theorem normalizeKey_dropped {l : List Char} (h : ∀ c ∈ l, keepCh c = false) :
    normalizeKey l = [] := by
  induction l with
  | nil => rfl
  | cons c l ih =>
    rw [normalizeKey_cons, h c (List.mem_cons_self c l)]
    exact ih fun d hd => h d (List.mem_cons_of_mem c hd)

theorem ciLitAt_norm : ∀ (w s : List Char), ciLitAt w s = true →
    normalizeKey (s.take w.length) = normalizeKey w := by
  intro w
  induction w with
  | nil => intro s h; simp [normalizeKey]
  | cons a w ih =>
    intro s h
    cases s with
    | nil => simp [ciLitAt] at h
    | cons b s' =>
      simp only [ciLitAt, Bool.and_eq_true] at h
      obtain ⟨hab, hrest⟩ := h
      have hlow : b.toLower = a.toLower := by
        simp only [ciEqChar, decide_eq_true_eq] at hab
        exact hab.symm
      simp only [List.length_cons, List.take_succ_cons]
      rw [normalizeKey_cons, normalizeKey_cons, ih s' hrest,
        keepCh_toLower hlow, hlow]

/-- The contribution of one token to the normalized key of a match. -/
def tokNorm : Tok → List Char
  | Tok.lit w => normalizeKey w
  | Tok.wsPlus => []
  | Tok.digitPlus => []

theorem matchToksAt_norm : ∀ (ts : List Tok) (s m : List Char),
    matchToksAt ts s = some m →
    normalizeKey m = (ts.map tokNorm).join := by
  intro ts
  induction ts with
  | nil =>
    intro s m h
    simp only [matchToksAt, Option.some.injEq] at h
    simp [← h, normalizeKey]
  | cons t ts ih =>
    intro s m h
    cases t with
    | lit w =>
      simp only [matchToksAt] at h
      by_cases hp : ciLitAt w s
      · rw [if_pos hp] at h
        cases hm : matchToksAt ts (s.drop w.length) with
        | none => rw [hm] at h; simp at h
        | some m' =>
          rw [hm] at h
          simp only [Option.map_some', Option.some.injEq] at h
          rw [← h, normalizeKey_append, ciLitAt_norm w s hp, ih _ _ hm]
          simp [tokNorm]
      · rw [if_neg hp] at h; simp at h
    | wsPlus =>
      simp only [matchToksAt] at h
      by_cases hp : (s.takeWhile isWs).isEmpty
      · rw [if_pos hp] at h; simp at h
      · rw [if_neg hp] at h
        cases hm : matchToksAt ts (s.dropWhile isWs) with
        | none => rw [hm] at h; simp at h
        | some m' =>
          rw [hm] at h
          simp only [Option.map_some', Option.some.injEq] at h
          rw [← h, normalizeKey_append, ih _ _ hm]
          have hdrop : normalizeKey (s.takeWhile isWs) = [] := by
            refine normalizeKey_dropped fun c hc => ?_
            have hw : isWs c = true := List.mem_takeWhile_imp hc
            simp [keepCh, hw]
          rw [hdrop]
          simp [tokNorm]
    | digitPlus =>
      simp only [matchToksAt] at h
      by_cases hp : (s.takeWhile isDigitCh).isEmpty
      · rw [if_pos hp] at h; simp at h
      · rw [if_neg hp] at h
        cases hm : matchToksAt ts (s.dropWhile isDigitCh) with
        | none => rw [hm] at h; simp at h
        | some m' =>
          rw [hm] at h
          simp only [Option.map_some', Option.some.injEq] at h
          rw [← h, normalizeKey_append, ih _ _ hm]
          have hdrop : normalizeKey (s.takeWhile isDigitCh) = [] := by
            refine normalizeKey_dropped fun c hc => ?_
            have hw : isDigitCh c = true := List.mem_takeWhile_imp hc
            simp [keepCh, hw]
          rw [hdrop]
          simp [tokNorm]

theorem warn_match_norm {s m : List Char} (h : matchToksAt warnToks s = some m) :
    normalizeKey m = warnKey := by
  rw [matchToksAt_norm warnToks s m h]
  decide

theorem parseData_nil : parseData [] = Except.ok none := by
  rw [parseData.eq_def]
  rfl

theorem parseData_ok_key : ∀ (n : Nat) (s : List Char), s.length ≤ n →
    ∀ r : ParseResult, parseData s = Except.ok (some r) → r.key ≠ warnKey := by
  intro n
  induction n with
  | zero =>
    intro s hlen r h
    have hs : s = [] := List.eq_nil_of_length_eq_zero (Nat.le_zero.mp hlen)
    subst hs
    rw [parseData_nil] at h
    exact absurd h (by simp)
  | succ n ih =>
    intro s hlen r h
    rw [parseData.eq_def] at h
    split at h
    · exact absurd h (by simp)
    · next m hterm =>
      by_cases h1 : normalizeKey m = readyKey
      · rw [if_pos h1] at h
        simp only [Except.ok.injEq, Option.some.injEq] at h
        rw [← h, h1]
        decide
      rw [if_neg h1] at h
      by_cases h2 : normalizeKey m = inuseKey
      · rw [if_pos h2] at h
        simp only [Except.ok.injEq, Option.some.injEq] at h
        rw [← h, h2]
        decide
      rw [if_neg h2] at h
      by_cases h3 : normalizeKey m = deniedKey
      · rw [if_pos h3] at h
        simp only [Except.ok.injEq, Option.some.injEq] at h
        rw [← h, h3]
        decide
      rw [if_neg h3] at h
      by_cases h4 : normalizeKey m = notlistenKey
      · rw [if_pos h4] at h
        simp only [Except.ok.injEq, Option.some.injEq] at h
        rw [← h, h4]
        decide
      rw [if_neg h4] at h
      by_cases h5 : normalizeKey m = cantKey ∨ normalizeKey m = errorKey
      · rw [if_pos h5] at h
        cases hexec : errorMessageExec s with
        | some g =>
          rw [hexec] at h
          simp only [Except.ok.injEq, Option.some.injEq] at h
          rw [← h]
          rcases h5 with h5 | h5
          · rw [h5]
            exact (by decide : cantKey ≠ warnKey)
          · rw [h5]
            exact (by decide : errorKey ≠ warnKey)
        | none =>
          rw [hexec] at h
          exact absurd h (by simp)
      rw [if_neg h5] at h
      by_cases h6 : normalizeKey m = warnKey
      · rw [if_pos h6] at h
        obtain ⟨⟨pre, post, hocc⟩, hne⟩ := terminalMatch_sound s m hterm
        have hlt := removeFirst_length_lt pre s m post hocc hne
        exact ih (removeFirst s m) (by omega) r h
      · rw [if_neg h6] at h
        simp only [Except.ok.injEq, Option.some.injEq] at h
        rw [← h]
        exact h6

theorem parseData_skips_warning (s m : List Char)
    (hready : execToks readyToks s = none)
    (hwarn : execToks warnToks s = some m) :
    parseData s = parseData (removeFirst s m) := by
  have hterm : terminalMatch s = some m := by
    rw [terminalMatch, hready, hwarn]
  have hkey : normalizeKey m = warnKey := by
    obtain ⟨t, ht⟩ := execToks_matchToksAt warnToks s m hwarn
    exact warn_match_norm ht
  rw [parseData.eq_def]
  split
  · next heq => rw [hterm] at heq; cases heq
  · next m2 heq =>
    rw [hterm] at heq
    injection heq with heq
    subst heq
    rw [hkey]
    rw [if_neg (by decide), if_neg (by decide), if_neg (by decide),
      if_neg (by decide), if_neg (by decide), if_pos rfl]

/-- The chunk of claim C7: the max-open-files warning followed by a fatal
error marker line. -/
def warnFatalChunk : List Char := warnChunk ++ " # Fatal error, aborting now.".toList

/-- The message the generic-error branch extracts from `warnFatalChunk`
once the warning text has been removed. -/
def warnFatalMsg : List Char := "Server : Operation not permitted. # Fatal error".toList

/-- Claim C7: (1) whenever the ready pattern does not match a chunk and
the warning pattern matches it with text `m`, `parseData` returns exactly
what it returns on the chunk with the first occurrence of `m` removed —
the warning is skipped and scanning continues on the remainder, so the
remainder's classification (in particular any failure) is the returned
outcome; (2) no outcome `parseData` ever returns carries the warning key,
so the warning itself is never a caller-visible result; (3) concretely, a
chunk consisting of the warning followed by a fatal error line classifies
to the code -3 failure extracted from the remainder. -/
theorem c7_warning_skipped :
    (∀ s m, execToks readyToks s = none → execToks warnToks s = some m →
      parseData s = parseData (removeFirst s m)) ∧
    (∀ s r, parseData s = Except.ok (some r) → r.key ≠ warnKey) ∧
    parseData warnFatalChunk =
      Except.ok (some { err := some { code := -3, message := warnFatalMsg },
                        key := errorKey }) := by
  refine ⟨parseData_skips_warning, ?_, ?_⟩
  · intro s r h
    exact parseData_ok_key s.length s (Nat.le_refl _) r h
  · rw [parseData.eq_def]
    exact (show parseData (removeFirst warnFatalChunk warnMatch) =
        Except.ok (some { err := some { code := -3, message := warnFatalMsg },
                          key := errorKey }) by
      rw [parseData.eq_def]; rfl)

/-- Witness for claim C7: the skip equation instantiated at the concrete
warning chunk, and the never-warning-outcome statement instantiated at
the concrete ready chunk and its result. -/
theorem c7_witness :
    parseData warnChunk = parseData (removeFirst warnChunk warnMatch) ∧
    readyRes.key ≠ warnKey :=
  ⟨c7_warning_skipped.1 warnChunk warnMatch (by decide) (by decide),
   c7_warning_skipped.2.1 chunkReady readyRes (by rw [parseData.eq_def]; rfl)⟩
